import Mathlib

/-!
Verification of the CCAM price-analysis pipeline
(`ccam_price_evolution.py`, `extract_and_convert.py`, `analyze_pu_base.py`).

Dataframes are embedded as Lean lists of record structures; pandas joins,
filters and group-bys become the corresponding list operations.  Prices
(Python floats holding exact decimal tariffs) are embedded as `Rat`;
modification timestamps are embedded as `Int` (dates under their usual
total order).  Columns produced by a left join can be missing (pandas
`NaN`), hence are embedded as `Option`.  An uncaught Python exception is
embedded as `Except.error` carrying its message, propagated through the
loops exactly as the exception propagates in the source.
-/

/-- Row of `R_ACTE` (a medical procedure): code, short/long names and its
menu code, the columns the pipeline reads. -/
structure ActeRow where
  cod_acte : Int
  nom_court : String
  nom_long : String
  menu_cod : Int
deriving Repr, DecidableEq, Inhabited

/-- Row of `R_ACTE_IVITE`: links a procedure (`acte_cod`) to an activity. -/
structure ActeIviteRow where
  cod_aa : Int
  acte_cod : Int
  activ_cod : Int
deriving Repr, DecidableEq, Inhabited

/-- Row of `R_ACTE_IVITE_PHASE`: links an activity row (`aa_cod`) to a phase. -/
structure ActeIvitePhaseRow where
  cod_aap : Int
  aa_cod : Int
  phase_cod : Int
deriving Repr, DecidableEq, Inhabited

/-- Row of `R_PU_BASE`: base price for a composite key and a pricing grid,
with a last-modification timestamp. -/
structure PuBaseRow where
  aap_cod : Int
  grille_cod : Int
  pu_base : Rat
  apdt_modif : Int
deriving Repr, DecidableEq, Inhabited

/-- Row of `R_MENU`: hierarchical category node; `cod_pere` is the parent
pointer, `none` embedding a null parent in the DBF data. -/
structure MenuRow where
  cod_menu : Int
  libelle : String
  cod_pere : Option Int
deriving Repr, DecidableEq, Inhabited

/-- Row of `R_ACTIVITE`: activity code to label. -/
structure ActiviteRow where
  cod_activ : Int
  libelle : String
deriving Repr, DecidableEq, Inhabited

/-- Row of `R_TB23`: pricing-grid code to label. -/
structure GrilleRow where
  cod_grille : Int
  libelle : String
deriving Repr, DecidableEq, Inhabited

/-- A row of the joined relation built by `merge_tables`.  The three
`Option String` columns come from left joins, `none` embedding pandas
`NaN` for unmatched rows. -/
structure MergedRow where
  cod_acte : Int
  nom_court : String
  nom_long : String
  menu_cod : Int
  activ_cod : Int
  phase_cod : Int
  grille_cod : Int
  pu_base : Rat
  apdt_modif : Int
  menu_libelle : Option String
  activite_libelle : Option String
  grille_libelle : Option String
deriving Repr, DecidableEq, Inhabited

/-- `self.grilles_filter = [3, 4, 5, 7, 17, 18]` from `__init__`. -/
def grilles_filter : List Int := [3, 4, 5, 7, 17, 18]

/-- `self.activites_filter = [1, 2, 3, 4]` from `__init__`. -/
def activites_filter : List Int := [1, 2, 3, 4]

/-- `self.phase_filter = 0` from `__init__`. -/
def phase_filter : Int := 0

/-- pandas `pd.merge(L, R, left_on, right_on, how='inner')`: one output row
per matching (left row, right row) pair, left-major order. -/
def innerJoin {α β κ : Type} [DecidableEq κ] (lkey : α → κ) (rkey : β → κ)
    (L : List α) (R : List β) : List (α × β) :=
  L.flatMap fun a => (R.filter fun b => rkey b = lkey a).map fun b => (a, b)

/-- pandas `pd.merge(L, R, left_on, right_on, how='left')`: every left row
appears; a left row with matching right rows is paired with each of them,
an unmatched left row is padded with `none` (pandas `NaN`). -/
def leftJoin {α β κ : Type} [DecidableEq κ] (lkey : α → κ) (rkey : β → κ)
    (L : List α) (R : List β) : List (α × Option β) :=
  L.flatMap fun a =>
    let ms := R.filter fun b => rkey b = lkey a
    if ms.isEmpty then [(a, none)] else ms.map fun b => (a, some b)

/-- `merge_tables` step 1: `R_ACTE_IVITE ⋈ R_ACTE` on `acte_cod = cod_acte`
(inner). -/
def mergeStep1 (ai : List ActeIviteRow) (a : List ActeRow) :
    List (ActeIviteRow × ActeRow) :=
  innerJoin (fun r => r.acte_cod) (fun r => r.cod_acte) ai a

/-- `merge_tables` step 2: `+ R_ACTE_IVITE_PHASE` on `cod_aa = aa_cod`
(inner). -/
def mergeStep2 (s : List (ActeIviteRow × ActeRow)) (aip : List ActeIvitePhaseRow) :
    List ((ActeIviteRow × ActeRow) × ActeIvitePhaseRow) :=
  innerJoin (fun p => p.1.cod_aa) (fun r => r.aa_cod) s aip

/-- `merge_tables` step 3: `+ R_PU_BASE` on `cod_aap = aap_cod` (inner). -/
def mergeStep3 (s : List ((ActeIviteRow × ActeRow) × ActeIvitePhaseRow))
    (pu : List PuBaseRow) :
    List (((ActeIviteRow × ActeRow) × ActeIvitePhaseRow) × PuBaseRow) :=
  innerJoin (fun p => p.2.cod_aap) (fun r => r.aap_cod) s pu

/-- `merge_tables` step 4: `+ R_MENU` on `menu_cod = cod_menu` (left join). -/
def mergeStep4 (s : List (((ActeIviteRow × ActeRow) × ActeIvitePhaseRow) × PuBaseRow))
    (menu : List MenuRow) :
    List ((((ActeIviteRow × ActeRow) × ActeIvitePhaseRow) × PuBaseRow) × Option MenuRow) :=
  leftJoin (fun p => p.1.1.2.menu_cod) (fun r => r.cod_menu) s menu

/-- `merge_tables` step 5: `+ R_ACTIVITE` on `activ_cod = cod_activ`
(left join). -/
def mergeStep5
    (s : List ((((ActeIviteRow × ActeRow) × ActeIvitePhaseRow) × PuBaseRow) × Option MenuRow))
    (activ : List ActiviteRow) :
    List (((((ActeIviteRow × ActeRow) × ActeIvitePhaseRow) × PuBaseRow) × Option MenuRow) × Option ActiviteRow) :=
  leftJoin (fun p => p.1.1.1.1.activ_cod) (fun r => r.cod_activ) s activ

/-- `merge_tables` step 6: `+ R_TB23` on `grille_cod = cod_grille`
(left join). -/
def mergeStep6
    (s : List (((((ActeIviteRow × ActeRow) × ActeIvitePhaseRow) × PuBaseRow) × Option MenuRow) × Option ActiviteRow))
    (grille : List GrilleRow) :
    List ((((((ActeIviteRow × ActeRow) × ActeIvitePhaseRow) × PuBaseRow) × Option MenuRow) × Option ActiviteRow) × Option GrilleRow) :=
  leftJoin (fun p => p.1.1.2.grille_cod) (fun r => r.cod_grille) s grille

/-- `merge_tables`: the six joins followed by flattening into the wide
relation (the column renames `libelle → menu_libelle / activite_libelle /
grille_libelle` become the three `Option` projections). -/
def merge_tables (a : List ActeRow) (ai : List ActeIviteRow)
    (aip : List ActeIvitePhaseRow) (pu : List PuBaseRow) (menu : List MenuRow)
    (activ : List ActiviteRow) (grille : List GrilleRow) : List MergedRow :=
  (mergeStep6 (mergeStep5 (mergeStep4 (mergeStep3 (mergeStep2 (mergeStep1 ai a) aip) pu) menu) activ) grille).map
    fun t =>
      { cod_acte := t.1.1.1.1.1.2.cod_acte
        nom_court := t.1.1.1.1.1.2.nom_court
        nom_long := t.1.1.1.1.1.2.nom_long
        menu_cod := t.1.1.1.1.1.2.menu_cod
        activ_cod := t.1.1.1.1.1.1.activ_cod
        phase_cod := t.1.1.1.1.2.phase_cod
        grille_cod := t.1.1.1.2.grille_cod
        pu_base := t.1.1.1.2.pu_base
        apdt_modif := t.1.1.1.2.apdt_modif
        menu_libelle := t.1.1.2.map fun r => r.libelle
        activite_libelle := t.1.2.map fun r => r.libelle
        grille_libelle := t.2.map fun r => r.libelle }

/-- `apply_filters`: successive restriction of the joined relation to the
grid allow-list, the activity allow-list and the phase equality, in the
source's order. -/
def apply_filters (df : List MergedRow) : List MergedRow :=
  ((df.filter fun r => r.grille_cod ∈ grilles_filter).filter
      fun r => r.activ_cod ∈ activites_filter).filter
    fun r => r.phase_cod = phase_filter

/-- Comparison used by `sort_values('apdt_modif')`: ascending timestamps. -/
def dateLE (a b : MergedRow) : Prop := a.apdt_modif ≤ b.apdt_modif

instance : DecidableRel dateLE := fun a b => Int.decLe a.apdt_modif b.apdt_modif

instance : IsTotal MergedRow dateLE := ⟨fun a b => Int.le_total a.apdt_modif b.apdt_modif⟩

instance : IsTrans MergedRow dateLE := ⟨fun _ _ _ => Int.le_trans⟩

/-- `df.sort_values('apdt_modif')`: a permutation of the rows sorted by
ascending modification timestamp (embedded as a stable insertion sort). -/
def sortByDate (rows : List MergedRow) : List MergedRow :=
  rows.insertionSort dateLE

/-- Accumulator pass behind `uniqueList`: keep the values not seen yet. -/
def uniqueListAux (seen : List Int) : List Int → List Int
  | [] => []
  | x :: xs =>
    if x ∈ seen then uniqueListAux seen xs
    else x :: uniqueListAux (x :: seen) xs

/-- pandas `Series.unique()`: the distinct values in order of first
appearance. -/
def uniqueList (l : List Int) : List Int := uniqueListAux [] l

/-- Percentage evolution from the source:
`((last - first) / first * 100) if first != 0 else 0`. -/
def evolutionPct (firstPrice lastPrice : Rat) : Rat :=
  if firstPrice ≠ 0 then (lastPrice - firstPrice) / firstPrice * 100 else 0

/-- One output record of `analyze_price_evolution_for_menu`. -/
structure EvolutionRecord where
  cod_acte : Int
  nom_court : String
  nom_long : String
  activite : Int
  activite_libelle : Option String
  grille_cod : Int
  grille_libelle : Option String
  date_premiere_modif : Int
  prix_initial : Rat
  date_derniere_modif : Int
  prix_actuel : Rat
  evolution_euros : Rat
  evolution_pct : Rat
  nb_modifications : Nat
deriving Repr, DecidableEq, Inhabited

deriving instance DecidableEq for Except

/-- The `grille_libelle` column of one record.  When the record's grid
differs from `acte_info`'s grid the source indexes
`self.df_grille[self.df_grille['cod_grille'] == grille].iloc[0]`, and
`.iloc[0]` on an empty selection raises `IndexError`, which propagates out
of `analyze_price_evolution_for_menu` uncaught; that exception is embedded
as `Except.error` carrying pandas's message. -/
def grilleLibelle (df_grille : List GrilleRow) (acte_info : MergedRow)
    (grille : Int) : Except String (Option String) :=
  if grille = acte_info.grille_cod then Except.ok acte_info.grille_libelle
  else
    match df_grille.find? fun g => g.cod_grille = grille with
    | some g => Except.ok (some g.libelle)
    | none => Except.error "IndexError: single positional indexer is out-of-bounds"

/-- Body of the `for grille in self.grilles_filter` loop: restrict the
entity's rows to one grid; if any remain, sort them by timestamp and build
the evolution record from the first and last sorted rows (`acte_info` is
`df_acte.iloc[0]`).  `Except.ok none` embeds the skipped (empty) grid,
`Except.error` the `IndexError` raised while building `grille_libelle`. -/
def evolutionEntry (df_grille : List GrilleRow) (acte_info : MergedRow)
    (acte : Int) (df_acte : List MergedRow) (grille : Int) :
    Except String (Option EvolutionRecord) :=
  let dag := df_acte.filter fun r => r.grille_cod = grille
  if dag.isEmpty then Except.ok none
  else
    match grilleLibelle df_grille acte_info grille with
    | Except.error e => Except.error e
    | Except.ok gl =>
      let s := sortByDate dag
      Except.ok (some
        { cod_acte := acte
          nom_court := acte_info.nom_court
          nom_long := acte_info.nom_long
          activite := acte_info.activ_cod
          activite_libelle := acte_info.activite_libelle
          grille_cod := grille
          grille_libelle := gl
          date_premiere_modif := s.headI.apdt_modif
          prix_initial := s.headI.pu_base
          date_derniere_modif := s.getLastI.apdt_modif
          prix_actuel := s.getLastI.pu_base
          evolution_euros := s.getLastI.pu_base - s.headI.pu_base
          evolution_pct := evolutionPct s.headI.pu_base s.getLastI.pu_base
          nb_modifications := s.length })

/-- The `results.append` accumulation over one loop of grid codes: emitted
records in loop order, stopping with the exception if one entry raises
(an uncaught exception discards the records appended before it). -/
def collectEntries (f : Int → Except String (Option EvolutionRecord)) :
    List Int → Except String (List EvolutionRecord)
  | [] => Except.ok []
  | g :: gs =>
    match f g with
    | Except.error e => Except.error e
    | Except.ok none => collectEntries f gs
    | Except.ok (some r) =>
      match collectEntries f gs with
      | Except.error e => Except.error e
      | Except.ok rs => Except.ok (r :: rs)

/-- Body of the `for acte in actes` loop: the records emitted for one
entity of the menu.  `df_acte.iloc[0]` becomes `headI` (the loop only runs
for values of `cod_acte` that occur in `df_menu`, so the list is never
empty there). -/
def menuGroup (df_grille : List GrilleRow) (df_menu : List MergedRow)
    (acte : Int) : Except String (List EvolutionRecord) :=
  let df_acte := df_menu.filter fun r => r.cod_acte = acte
  collectEntries (evolutionEntry df_grille df_acte.headI acte df_acte) grilles_filter

/-- The outer loop over the menu's entities, concatenating each entity's
records and propagating an exception raised in any iteration. -/
def analyzeGroups (df_grille : List GrilleRow) (df_menu : List MergedRow) :
    List Int → Except String (List EvolutionRecord)
  | [] => Except.ok []
  | acte :: rest =>
    match menuGroup df_grille df_menu acte with
    | Except.error e => Except.error e
    | Except.ok rs =>
      match analyzeGroups df_grille df_menu rest with
      | Except.error e => Except.error e
      | Except.ok more => Except.ok (rs ++ more)

/-- `analyze_price_evolution_for_menu`: restrict the joined relation to one
menu.  `Except.ok none` embeds the source's `return None` (no matching
row), `Except.ok (some rs)` the returned record list in `unique()` order,
and `Except.error` an `IndexError` escaping the loops uncaught. -/
def analyze_price_evolution_for_menu (df_grille : List GrilleRow)
    (df_merged : List MergedRow) (menu_cod : Int) :
    Except String (Option (List EvolutionRecord)) :=
  let df_menu := df_merged.filter fun r => r.menu_cod = menu_cod
  if df_menu.isEmpty then Except.ok none
  else
    match analyzeGroups df_grille df_menu (uniqueList (df_menu.map fun r => r.cod_acte)) with
    | Except.error e => Except.error e
    | Except.ok rs => Except.ok (some rs)

/-- The rows of one (menu, entity, grid) series inside the joined relation:
the successive restrictions taken by `analyze_price_evolution_for_menu`. -/
def acteGrilleRows (df_merged : List MergedRow) (menu acte grille : Int) :
    List MergedRow :=
  ((df_merged.filter fun r => r.menu_cod = menu).filter
      fun r => r.cod_acte = acte).filter
    fun r => r.grille_cod = grille

/-- Loop body of `get_menu_hierarchy_path`, indexed by fuel.  `current` is
`none` for a Python `None`/null parent.  The loop exits when `current` is
`0` or null, or when no menu row carries the current code (`break`);
`none` in the result embeds exhaustion of the fuel, i.e. divergence of the
source's `while` loop. -/
def menuPathGo (df : List MenuRow) (fuel : Nat) (current : Option Int)
    (path : List String) : Option (List String) :=
  match current with
  | none => some path
  | some c =>
    if c = 0 then some path
    else
      match fuel with
      | 0 => none
      | fuel + 1 =>
        match df.find? fun r => r.cod_menu = c with
        | some row => menuPathGo df fuel row.cod_pere ((toString c ++ "_" ++ row.libelle) :: path)
        | none => some path

/-- `get_menu_hierarchy_path`: walk up the parent pointers accumulating
`"code_label"` segments, then join with `" > "`, or `"SANS_MENU"` for an
empty path.  A terminating run of the source loop looks up pairwise
distinct codes, hence performs at most `df.length` iterations, so fuel
`df.length + 1` is exhausted exactly when the source loop diverges. -/
def get_menu_hierarchy_path (df : List MenuRow) (menu_cod : Int) : Option String :=
  (menuPathGo df (df.length + 1) (some menu_cod) []).map fun path =>
    if path.isEmpty then "SANS_MENU" else String.intercalate " > " path

/-- Character cleaning in `export_menu_to_excel`:
`c if c.isalnum() or c in (' ', '-', '_') else '_'`.  The source delegates
the alphanumeric test to the Python runtime's Unicode-aware
`str.isalnum`; that classification is external to this repository, so it
is a parameter `isalnum` of the embedding, and every property below holds
for each classification — in particular for CPython's (which agrees with
`Char.isAlphanum` on the ASCII range). -/
def sanitizeChar (isalnum : Char → Bool) (c : Char) : Char :=
  if isalnum c || c = ' ' || c = '-' || c = '_' then c else '_'

/-- Label sanitization of `export_menu_to_excel` before truncation,
parameterized like `sanitizeChar` over the runtime's alphanumeric
classification. -/
def sanitizeLabel (isalnum : Char → Bool) (s : String) : String :=
  String.mk (s.toList.map (sanitizeChar isalnum))

/-- The output filename chosen by `export_menu_to_excel` (relative to the
output directory): the menu's label is sanitized and truncated to 100
characters (`Menu_{cod}` when the code has no row), then prefixed with the
menu code. -/
def export_filename (isalnum : Char → Bool) (df_menu : List MenuRow)
    (menu_cod : Int) : String :=
  let menu_name :=
    match df_menu.find? fun r => r.cod_menu = menu_cod with
    | none => "Menu_" ++ toString menu_cod
    | some row => String.mk ((sanitizeLabel isalnum row.libelle).toList.take 100)
  toString menu_cod ++ "_" ++ menu_name ++ ".xlsx"

/-- A cell value of a DBF table. -/
inductive DBFValue where
  | intVal (i : Int)
  | strVal (s : String)
  | ratVal (q : Rat)
  | nullVal
deriving Repr, DecidableEq

/-- A parsed DBF source: the declared field names, and the records, each a
value list aligned with the field names (`dbfread` yields every record
keyed by exactly the declared field names). -/
structure DBFFile where
  fieldNames : List String
  records : List (List DBFValue)
deriving Repr, DecidableEq

/-- An in-memory dataframe: column names plus rows. -/
structure DataFrame where
  columns : List String
  rows : List (List DBFValue)
deriving Repr, DecidableEq

/-- `convert_dbf_to_df`: build the dataframe from the records and
lower-case the column names; an empty record set yields an empty frame
carrying the lower-cased declared field names. -/
def convert_dbf_to_df (dbf : DBFFile) : DataFrame :=
  let column_names := dbf.fieldNames.map fun s => s.toLower
  if dbf.records.isEmpty then { columns := column_names, rows := [] }
  else { columns := dbf.fieldNames.map fun s => s.toLower, rows := dbf.records }

/-- `PUBaseAnalyzer.load_data`: check that `R_PU_BASE.dbf` exists (the
filesystem is embedded as the list of present paths, its content as a
`DBFFile`), else raise `FileNotFoundError(f"Fichier {path} introuvable")`
(embedded as `Except.error` with the same message). -/
def load_data (fs : List String) (pu_base_path : String) (content : DBFFile) :
    Except String DataFrame :=
  if pu_base_path ∈ fs then Except.ok (convert_dbf_to_df content)
  else Except.error ("Fichier " ++ pu_base_path ++ " introuvable")

/-- The CSV reports written by a successful `run_full_analysis`, in the
order the source writes them. -/
def pu_base_csv_outputs : List String :=
  ["analyse_par_grille.csv", "top_20_actes_plus_chers.csv",
   "analyse_par_acte.csv", "top_variations_prix.csv",
   "analyse_temporelle.csv", "pu_base_complete.csv"]

/-- `PUBaseAnalyzer.run_full_analysis`: `load_data` runs first; an
exception there propagates and aborts the run before any report is
written.  The result is the list of files written plus the error message,
if any. -/
def run_full_analysis (fs : List String) (pu_base_path : String)
    (content : DBFFile) : List String × Option String :=
  match load_data fs pu_base_path content with
  | Except.error msg => ([], some msg)
  | Except.ok _ => (pu_base_csv_outputs, none)

/-- `acte_info = df_acte.iloc[0]`: the row whose descriptive columns every
record of the entity copies. -/
def acteInfo (df_merged : List MergedRow) (menu acte : Int) : MergedRow :=
  ((df_merged.filter fun r => r.menu_cod = menu).filter fun r => r.cod_acte = acte).headI

lemma mem_uniqueListAux {a : Int} :
    ∀ {l seen : List Int}, a ∈ uniqueListAux seen l → a ∈ l := by
  intro l
  induction l with
  | nil => intro seen h; simp [uniqueListAux] at h
  | cons x xs ih =>
    intro seen h
    rw [uniqueListAux] at h
    by_cases hx : x ∈ seen
    · rw [if_pos hx] at h
      exact List.mem_cons_of_mem _ (ih h)
    · rw [if_neg hx] at h
      rcases List.mem_cons.mp h with rfl | h
      · exact List.mem_cons_self _ _
      · exact List.mem_cons_of_mem _ (ih h)

lemma mem_uniqueList {a : Int} {l : List Int} (h : a ∈ uniqueList l) : a ∈ l :=
  mem_uniqueListAux h

lemma uniqueListAux_invariant :
    ∀ (l seen : List Int),
      (∀ a ∈ uniqueListAux seen l, a ∉ seen) ∧ (uniqueListAux seen l).Nodup := by
  intro l
  induction l with
  | nil => intro seen; simp [uniqueListAux]
  | cons x xs ih =>
    intro seen
    rw [uniqueListAux]
    by_cases hx : x ∈ seen
    · rw [if_pos hx]
      exact ih seen
    · rw [if_neg hx]
      obtain ⟨hnotin, hnd⟩ := ih (x :: seen)
      refine ⟨?_, ?_⟩
      · intro a ha
        rcases List.mem_cons.mp ha with rfl | ha
        · exact hx
        · exact fun hs => hnotin a ha (List.mem_cons_of_mem _ hs)
      · refine List.nodup_cons.mpr ⟨fun hmem => ?_, hnd⟩
        exact hnotin x hmem (List.mem_cons_self _ _)

lemma uniqueList_nodup (l : List Int) : (uniqueList l).Nodup :=
  (uniqueListAux_invariant l []).2

lemma sortByDate_sorted (l : List MergedRow) : List.Sorted dateLE (sortByDate l) :=
  List.sorted_insertionSort dateLE l

lemma sortByDate_perm (l : List MergedRow) : (sortByDate l).Perm l :=
  List.perm_insertionSort dateLE l

lemma sortByDate_length (l : List MergedRow) : (sortByDate l).length = l.length :=
  List.length_insertionSort dateLE l

/-- Projections of a record produced by the grid loop body. -/
lemma evolutionEntry_props {dfg : List GrilleRow} {info : MergedRow} {acte grille : Int}
    {dfa : List MergedRow} {r : EvolutionRecord}
    (h : evolutionEntry dfg info acte dfa grille = Except.ok (some r)) :
    r.cod_acte = acte ∧ r.grille_cod = grille ∧
    r.nom_court = info.nom_court ∧ r.nom_long = info.nom_long ∧
    r.activite = info.activ_cod ∧ r.activite_libelle = info.activite_libelle ∧
    r.prix_initial = (sortByDate (dfa.filter fun x => x.grille_cod = grille)).headI.pu_base ∧
    r.prix_actuel = (sortByDate (dfa.filter fun x => x.grille_cod = grille)).getLastI.pu_base ∧
    r.evolution_euros = r.prix_actuel - r.prix_initial ∧
    r.evolution_pct = evolutionPct r.prix_initial r.prix_actuel ∧
    r.nb_modifications = (dfa.filter fun x => x.grille_cod = grille).length := by
  simp only [evolutionEntry] at h
  by_cases hemp : (dfa.filter fun x => x.grille_cod = grille).isEmpty
  · rw [if_pos hemp] at h
    injection h with h'
    cases h'
  · rw [if_neg hemp] at h
    cases hgl : grilleLibelle dfg info grille with
    | error e => rw [hgl] at h; cases h
    | ok gl =>
      rw [hgl] at h
      injection h with h'
      injection h' with h''
      subst h''
      exact ⟨rfl, rfl, rfl, rfl, rfl, rfl, rfl, rfl, rfl, rfl, sortByDate_length _⟩

/-- A grid with matching rows either raises during the label lookup or
emits a record: a successful evaluation is never `none`. -/
lemma evolutionEntry_ok_some {dfg : List GrilleRow} {info : MergedRow} {acte grille : Int}
    {dfa : List MergedRow} {og : Option EvolutionRecord}
    (hok : evolutionEntry dfg info acte dfa grille = Except.ok og)
    (hne : dfa.filter (fun x => x.grille_cod = grille) ≠ []) :
    ∃ r, og = some r := by
  simp only [evolutionEntry] at hok
  rw [if_neg (by simpa using hne)] at hok
  cases hgl : grilleLibelle dfg info grille with
  | error e => rw [hgl] at hok; cases hok
  | ok gl =>
    rw [hgl] at hok
    injection hok with h'
    exact ⟨_, h'.symm⟩

/-- Membership in a successful entry collection comes from a successful
entry. -/
lemma mem_collectEntries {f : Int → Except String (Option EvolutionRecord)} :
    ∀ {gl : List Int} {rs : List EvolutionRecord} {r : EvolutionRecord},
      collectEntries f gl = Except.ok rs → r ∈ rs →
      ∃ g ∈ gl, f g = Except.ok (some r) := by
  intro gl
  induction gl with
  | nil =>
    intro rs r hok hr
    injection hok with h'
    subst h'
    cases hr
  | cons g gs ih =>
    intro rs r hok hr
    rw [collectEntries] at hok
    cases hf : f g with
    | error e => rw [hf] at hok; cases hok
    | ok og =>
      rw [hf] at hok
      match og with
      | none =>
        obtain ⟨g', hg', hfg'⟩ := ih hok hr
        exact ⟨g', List.mem_cons_of_mem _ hg', hfg'⟩
      | some r0 =>
        cases hrest : collectEntries f gs with
        | error e => rw [hrest] at hok; cases hok
        | ok rs' =>
          rw [hrest] at hok
          injection hok with h'
          subst h'
          rcases List.mem_cons.mp hr with rfl | hr
          · exact ⟨g, List.mem_cons_self _ _, hf⟩
          · obtain ⟨g', hg', hfg'⟩ := ih hrest hr
            exact ⟨g', List.mem_cons_of_mem _ hg', hfg'⟩

/-- Every record emitted for one entity carries that entity's code. -/
lemma mem_menuGroup_cod_acte {dfg : List GrilleRow} {df_menu : List MergedRow}
    {acte : Int} {rs : List EvolutionRecord} {r : EvolutionRecord}
    (h : menuGroup dfg df_menu acte = Except.ok rs) (hr : r ∈ rs) :
    r.cod_acte = acte := by
  simp only [menuGroup] at h
  obtain ⟨grille, -, hsome⟩ := mem_collectEntries h hr
  exact (evolutionEntry_props hsome).1

/-- Membership in a successful analysis comes from a successful entity
group. -/
lemma mem_analyzeGroups {dfg : List GrilleRow} {dm : List MergedRow} :
    ∀ {l : List Int} {rs : List EvolutionRecord} {r : EvolutionRecord},
      analyzeGroups dfg dm l = Except.ok rs → r ∈ rs →
      ∃ a ∈ l, ∃ ga, menuGroup dfg dm a = Except.ok ga ∧ r ∈ ga := by
  intro l
  induction l with
  | nil =>
    intro rs r hok hr
    injection hok with h'
    subst h'
    cases hr
  | cons a rest ih =>
    intro rs r hok hr
    rw [analyzeGroups] at hok
    cases hg : menuGroup dfg dm a with
    | error e => rw [hg] at hok; cases hok
    | ok ga =>
      rw [hg] at hok
      cases hrest : analyzeGroups dfg dm rest with
      | error e => rw [hrest] at hok; cases hok
      | ok more =>
        rw [hrest] at hok
        injection hok with h'
        subst h'
        rcases List.mem_append.mp hr with hr | hr
        · exact ⟨a, List.mem_cons_self _ _, ga, hg, hr⟩
        · obtain ⟨a', ha', ga', hga', hr'⟩ := ih hrest hr
          exact ⟨a', List.mem_cons_of_mem _ ha', ga', hga', hr'⟩

/-- A successful analysis of a nonempty menu selection exposes a
successful run of the entity loop. -/
lemma analyze_ok_elim {dfg : List GrilleRow} {dfm : List MergedRow} {menu : Int}
    {out : List EvolutionRecord}
    (hout : analyze_price_evolution_for_menu dfg dfm menu = Except.ok (some out)) :
    analyzeGroups dfg (dfm.filter fun r => r.menu_cod = menu)
      (uniqueList ((dfm.filter fun r => r.menu_cod = menu).map fun r => r.cod_acte)) =
      Except.ok out := by
  simp only [analyze_price_evolution_for_menu] at hout
  by_cases hemp : ((dfm.filter fun x => x.menu_cod = menu).isEmpty)
  · rw [if_pos hemp] at hout
    injection hout with h'
    cases h'
  · rw [if_neg hemp] at hout
    cases hg : analyzeGroups dfg (dfm.filter fun r => r.menu_cod = menu)
        (uniqueList ((dfm.filter fun r => r.menu_cod = menu).map fun r => r.cod_acte)) with
    | error e => rw [hg] at hout; cases hout
    | ok rs =>
      rw [hg] at hout
      injection hout with h'
      injection h' with h''
      rw [h'']

/-- C5 helper: `apply_filters` equals the single filter by the conjunction
of the three dimension tests. -/
lemma apply_filters_eq (df : List MergedRow) :
    apply_filters df = df.filter fun r =>
      decide (r.grille_cod ∈ grilles_filter ∧ r.activ_cod ∈ activites_filter ∧
        r.phase_cod = phase_filter) := by
  unfold apply_filters
  rw [List.filter_filter, List.filter_filter]
  refine List.filter_congr fun r _ => ?_
  by_cases h1 : r.grille_cod ∈ grilles_filter <;>
    by_cases h2 : r.activ_cod ∈ activites_filter <;>
      by_cases h3 : r.phase_cod = phase_filter <;> simp [h1, h2, h3]

/-- C5: `apply_filters` retains exactly the rows passing the conjunction of
the three membership tests (with the allow-lists of `__init__`), no other
rows; it is idempotent; and applying the three filters in the reverse
order yields the same rows. -/
theorem apply_filters_spec (df : List MergedRow) :
    (apply_filters df = df.filter fun r =>
      decide (r.grille_cod ∈ ([3, 4, 5, 7, 17, 18] : List Int) ∧
        r.activ_cod ∈ ([1, 2, 3, 4] : List Int) ∧ r.phase_cod = 0)) ∧
    (∀ r : MergedRow, r ∈ apply_filters df ↔ r ∈ df ∧
      r.grille_cod ∈ ([3, 4, 5, 7, 17, 18] : List Int) ∧
      r.activ_cod ∈ ([1, 2, 3, 4] : List Int) ∧ r.phase_cod = 0) ∧
    apply_filters (apply_filters df) = apply_filters df ∧
    ((df.filter fun r => r.phase_cod = phase_filter).filter
        fun r => r.activ_cod ∈ activites_filter).filter
      (fun r => r.grille_cod ∈ grilles_filter) = apply_filters df := by
  refine ⟨apply_filters_eq df, ?_, ?_, ?_⟩
  · intro r
    rw [apply_filters_eq]
    simp [List.mem_filter, grilles_filter, activites_filter, phase_filter, and_assoc]
  · rw [apply_filters_eq, apply_filters_eq, List.filter_filter]
    refine List.filter_congr fun r _ => ?_
    by_cases h : r.grille_cod ∈ grilles_filter ∧ r.activ_cod ∈ activites_filter ∧
      r.phase_cod = phase_filter <;> simp [h]
  · rw [apply_filters_eq, List.filter_filter, List.filter_filter]
    refine List.filter_congr fun r _ => ?_
    by_cases h1 : r.grille_cod ∈ grilles_filter <;>
      by_cases h2 : r.activ_cod ∈ activites_filter <;>
        by_cases h3 : r.phase_cod = phase_filter <;> simp [h1, h2, h3]

/-- C7: `convert_dbf_to_df` always returns the source's field names
lower-cased as column names, and exactly the source's records as rows (so
an empty source yields zero rows with the expected columns). -/
theorem convert_dbf_to_df_spec (dbf : DBFFile) :
    (convert_dbf_to_df dbf).columns = dbf.fieldNames.map (fun s => s.toLower) ∧
    (convert_dbf_to_df dbf).rows = dbf.records := by
  unfold convert_dbf_to_df
  by_cases h : dbf.records.isEmpty
  · rw [if_pos h]
    exact ⟨rfl, (List.isEmpty_iff.mp h).symm⟩
  · rw [if_neg h]
    exact ⟨rfl, rfl⟩

/-- C8: when `R_PU_BASE.dbf` is absent, the run fails with the
`FileNotFoundError` message naming the missing path, and writes no CSV
report. -/
theorem run_full_analysis_aborts (fs : List String) (path : String)
    (content : DBFFile) (h : path ∉ fs) :
    run_full_analysis fs path content =
      ([], some ("Fichier " ++ path ++ " introuvable")) := by
  unfold run_full_analysis load_data
  rw [if_neg h]

theorem run_full_analysis_aborts_witness :
    run_full_analysis [] "data/ccam_v79.10/R_PU_BASE.dbf" ⟨[], []⟩ =
      ([], some ("Fichier " ++ "data/ccam_v79.10/R_PU_BASE.dbf" ++ " introuvable")) :=
  run_full_analysis_aborts [] "data/ccam_v79.10/R_PU_BASE.dbf" ⟨[], []⟩ (by simp)

/-- C3: a series whose first recorded price is zero gets percentage
evolution exactly `0`, whatever the last price: the zero denominator is
resolved to the sentinel, never an error. -/
theorem evolution_pct_zero (dfg : List GrilleRow) (dfm : List MergedRow)
    (menu : Int) (out : List EvolutionRecord) (r : EvolutionRecord)
    (hout : analyze_price_evolution_for_menu dfg dfm menu = Except.ok (some out))
    (hr : r ∈ out) (h0 : r.prix_initial = 0) : r.evolution_pct = 0 := by
  obtain ⟨acte, -, ga, hga, hrga⟩ := mem_analyzeGroups (analyze_ok_elim hout) hr
  simp only [menuGroup] at hga
  obtain ⟨grille, -, hsome⟩ := mem_collectEntries hga hrga
  obtain ⟨-, -, -, -, -, -, -, -, -, hpct, -⟩ := evolutionEntry_props hsome
  rw [hpct, h0]
  simp [evolutionPct]

/-- First row of the spec's end-to-end scenario: price 10.0 in 2020. -/
def scenarioRow1 : MergedRow :=
  ⟨100, "X", "X", 1, 1, 0, 3, 10, 20200101, some "M", some "A1", some "G3"⟩

/-- Second row of the spec's end-to-end scenario: price 12.0 in 2022. -/
def scenarioRow2 : MergedRow :=
  ⟨100, "X", "X", 1, 1, 0, 3, 12, 20220101, some "M", some "A1", some "G3"⟩

/-- The joined relation of the spec's end-to-end scenario. -/
def scenarioDf : List MergedRow := [scenarioRow1, scenarioRow2]

/-- The record the analyzer emits on the end-to-end scenario. -/
def scenarioRecord : EvolutionRecord :=
  ⟨100, "X", "X", 1, some "A1", 3, some "G3", 20200101, 10, 20220101, 12, 2, 20, 2⟩

/-- A series starting at price 0 (2020) and ending at 5 (2022). -/
def zeroDf : List MergedRow :=
  [⟨200, "Z", "Z", 1, 1, 0, 3, 0, 20200101, some "M", some "A1", some "G3"⟩,
   ⟨200, "Z", "Z", 1, 1, 0, 3, 5, 20220101, some "M", some "A1", some "G3"⟩]

/-- The record the analyzer emits on the zero-first-price series. -/
def zeroRecord : EvolutionRecord :=
  ⟨200, "Z", "Z", 1, some "A1", 3, some "G3", 20200101, 0, 20220101, 5, 5, 0, 2⟩

unseal Rat.sub Rat.add Rat.mul Rat.inv in
theorem evolution_pct_zero_witness : zeroRecord.evolution_pct = 0 :=
  evolution_pct_zero [] zeroDf 1 [zeroRecord] zeroRecord
    (by decide : analyze_price_evolution_for_menu [] zeroDf 1 = Except.ok (some [zeroRecord]))
    (by decide) (by decide)

lemma filter_key_length_le_one {β κ : Type} [DecidableEq κ] (rkey : β → κ)
    {R : List β} (h : (R.map rkey).Nodup) (k : κ) :
    (R.filter fun b => rkey b = k).length ≤ 1 := by
  induction R with
  | nil => simp
  | cons b t ih =>
    rw [List.map_cons, List.nodup_cons] at h
    obtain ⟨hb, ht⟩ := h
    rw [List.filter_cons]
    by_cases hk : rkey b = k
    · have htail : t.filter (fun x => decide (rkey x = k)) = [] := by
        rw [List.filter_eq_nil_iff]
        intro x hx hxk
        exact hb (List.mem_map.mpr ⟨x, hx, by rw [of_decide_eq_true hxk, hk]⟩)
      simp [hk, htail]
    · simpa [hk] using ih ht

/-- C2 (amended): a pandas left join preserves the left row count when the
right table's join-key column has no duplicates; all left rows are then
preserved in order, and every output row is either padded with `none`
(exactly when no right row matches its key) or paired with a matching
right row. -/
theorem leftJoin_spec {α β κ : Type} [DecidableEq κ] (lkey : α → κ) (rkey : β → κ)
    (L : List α) (R : List β) (h : (R.map rkey).Nodup) :
    (leftJoin lkey rkey L R).length = L.length ∧
    (leftJoin lkey rkey L R).map Prod.fst = L ∧
    ∀ p ∈ leftJoin lkey rkey L R,
      (p.2 = none ↔ ∀ b ∈ R, rkey b ≠ lkey p.1) ∧
      ∀ b, p.2 = some b → b ∈ R ∧ rkey b = lkey p.1 := by
  induction L with
  | nil => exact ⟨rfl, rfl, by intro p hp; cases hp⟩
  | cons a t ih =>
    obtain ⟨ih1, ih2, ih3⟩ := ih
    have hcons : leftJoin lkey rkey (a :: t) R =
        (if (R.filter fun b => rkey b = lkey a).isEmpty
          then [(a, none)]
          else (R.filter fun b => rkey b = lkey a).map fun b => (a, some b)) ++
        leftJoin lkey rkey t R := by
      simp only [leftJoin, List.flatMap_cons]
    by_cases hemp : (R.filter fun b => rkey b = lkey a).isEmpty
    · rw [hcons, if_pos hemp]
      refine ⟨by simpa using ih1, by simpa using ih2, ?_⟩
      intro p hp
      rcases List.mem_cons.mp hp with rfl | hp
      · refine ⟨⟨fun _ => ?_, fun _ => rfl⟩, fun b hb => Option.noConfusion hb⟩
        intro b hb hkey
        have : b ∈ R.filter fun x => rkey x = lkey a :=
          List.mem_filter.mpr ⟨hb, decide_eq_true hkey⟩
        rw [List.isEmpty_iff.mp hemp] at this
        cases this
      · exact ih3 p hp
    · have hlen1 : (R.filter fun b => rkey b = lkey a).length = 1 := by
        have hle := filter_key_length_le_one rkey h (lkey a)
        have hne : (R.filter fun b => rkey b = lkey a) ≠ [] := by
          simpa using hemp
        have : (R.filter fun b => rkey b = lkey a).length ≠ 0 := by
          simpa [List.length_eq_zero] using hne
        omega
      obtain ⟨b0, hb0⟩ := List.length_eq_one.mp hlen1
      rw [hcons, if_neg hemp, hb0]
      have hb0mem : b0 ∈ R ∧ rkey b0 = lkey a := by
        have : b0 ∈ R.filter fun x => rkey x = lkey a := by
          rw [hb0]; exact List.mem_singleton_self b0
        exact ⟨(List.mem_filter.mp this).1,
          of_decide_eq_true (List.mem_filter.mp this).2⟩
      refine ⟨by simpa using ih1, by simpa using ih2, ?_⟩
      intro p hp
      rcases List.mem_cons.mp hp with rfl | hp
      · refine ⟨⟨fun hnone => Option.noConfusion hnone, fun hall => ?_⟩, fun b hb => ?_⟩
        · exact absurd hb0mem.2 (hall b0 hb0mem.1)
        · cases hb
          exact hb0mem
      · exact ih3 p hp

theorem leftJoin_spec_witness :
    (leftJoin (fun x : Int => x) (fun x : Int => x) [1, 2] [2, 3]).length = 2 :=
  (leftJoin_spec (fun x : Int => x) (fun x : Int => x) [1, 2] [2, 3] (by decide)).1

/-- One procedure joined down to a single row before the menu join. -/
def cexActe : List ActeRow := [⟨100, "X", "XL", 5⟩]

def cexActeIvite : List ActeIviteRow := [⟨1, 100, 1⟩]

def cexPhase : List ActeIvitePhaseRow := [⟨10, 1, 0⟩]

def cexPuBase : List PuBaseRow := [⟨10, 3, 10, 2020⟩]

/-- A menu table holding two rows with the same `cod_menu`. -/
def cexMenu : List MenuRow := [⟨5, "M1", some 0⟩, ⟨5, "M2", some 0⟩]

/-- C2 counterexample: with a duplicated `cod_menu` in the menu table, the
left join of `merge_tables` step 4 receives 1 left row but emits 2 rows. -/
theorem mergeStep4_count_counterexample :
    (mergeStep3 (mergeStep2 (mergeStep1 cexActeIvite cexActe) cexPhase) cexPuBase).length = 1 ∧
    (mergeStep4 (mergeStep3 (mergeStep2 (mergeStep1 cexActeIvite cexActe) cexPhase) cexPuBase) cexMenu).length = 2 := by
  decide

/-- The spec's synthetic menu tree (0,"ROOT") → (1,"A") → (2,"B"). -/
def synthTree : List MenuRow :=
  [⟨0, "ROOT", none⟩, ⟨1, "A", some 0⟩, ⟨2, "B", some 1⟩]

/-- C4: the upward walk accumulates `"code_label"` segments joined by
`" > "`; a code with no row in the menu table yields the `"SANS_MENU"`
sentinel, and on the synthetic tree code 2 resolves to `"1_A > 2_B"`
(the root row, code 0, is the stop condition and is not included). -/
theorem menu_hierarchy_path_spec :
    (∀ (df : List MenuRow) (code : Int),
      df.find? (fun r => r.cod_menu = code) = none →
      get_menu_hierarchy_path df code = some "SANS_MENU") ∧
    get_menu_hierarchy_path synthTree 2 = some "1_A > 2_B" ∧
    get_menu_hierarchy_path synthTree 99 = some "SANS_MENU" := by
  refine ⟨?_, by decide, by decide⟩
  intro df code h
  by_cases h0 : code = 0
  · subst h0
    simp [get_menu_hierarchy_path, menuPathGo]
  · simp [get_menu_hierarchy_path, menuPathGo, h0, h]

theorem menu_hierarchy_path_spec_witness :
    get_menu_hierarchy_path [⟨7, "LEAF", some 0⟩] 42 = some "SANS_MENU" :=
  menu_hierarchy_path_spec.1 [⟨7, "LEAF", some 0⟩] 42 (by decide)

lemma menuPathGo_isSome (df : List MenuRow) (μ : Int → Nat)
    (hdec : ∀ r ∈ df, ∀ p, r.cod_pere = some p → μ p < μ r.cod_menu) :
    ∀ (fuel : Nat) (cur : Option Int) (path : List String),
      (∀ c, cur = some c → μ c < fuel) →
      (menuPathGo df fuel cur path).isSome = true := by
  intro fuel
  induction fuel with
  | zero =>
    intro cur path h
    match cur with
    | none => simp [menuPathGo]
    | some c => exact absurd (h c rfl) (Nat.not_lt_zero _)
  | succ f ih =>
    intro cur path h
    match cur with
    | none => simp [menuPathGo]
    | some c =>
      by_cases h0 : c = 0
      · simp [menuPathGo, h0]
      · cases hfind : df.find? fun r => r.cod_menu = c with
        | none => simp [menuPathGo, h0, hfind]
        | some row =>
          simp only [menuPathGo, if_neg h0, hfind]
          apply ih
          intro c' hc'
          have hrowmem := List.mem_of_find?_eq_some hfind
          have h1 := List.find?_some hfind
          simp only [decide_eq_true_eq] at h1
          have hrowcod : row.cod_menu = c := h1
          have hlt := hdec row hrowmem c' hc'
          rw [hrowcod] at hlt
          have hcf : μ c < f + 1 := h c rfl
          omega

/-- C9: when the parent pointers admit a strictly decreasing rank bounded
by the table size — true of any parent relation forming a rooted tree
stored in the table — the upward walk of `get_menu_hierarchy_path`
terminates (the fuel `df.length + 1`, which over-approximates the
iterations of any terminating run of the source's `while` loop, is never
exhausted). -/
theorem get_menu_hierarchy_path_terminates (df : List MenuRow) (code : Int)
    (μ : Int → Nat)
    (hdec : ∀ r ∈ df, ∀ p, r.cod_pere = some p → μ p < μ r.cod_menu)
    (hbound : μ code ≤ df.length) :
    (get_menu_hierarchy_path df code).isSome = true := by
  unfold get_menu_hierarchy_path
  have hsome := menuPathGo_isSome df μ hdec (df.length + 1) (some code) []
    (fun c hc => by cases hc; omega)
  obtain ⟨v, hv⟩ := Option.isSome_iff_exists.mp hsome
  rw [hv]
  rfl

/-- A two-node chain 2 → 1 → 0 used to witness termination. -/
def pathTree : List MenuRow := [⟨1, "A", some 0⟩, ⟨2, "B", some 1⟩]

theorem get_menu_hierarchy_path_terminates_witness :
    (get_menu_hierarchy_path pathTree 2).isSome = true :=
  get_menu_hierarchy_path_terminates pathTree 2 Int.toNat
    (by
      intro r hr p hp
      rcases List.mem_cons.mp hr with rfl | hr
      · injection hp with h
        subst h
        decide
      · rcases List.mem_cons.mp hr with rfl | hr
        · injection hp with h
          subst h
          decide
        · cases hr)
    (by decide)

/-- When every entry of the loop that can emit a record fails the filter,
a successful collection filters to nothing. -/
lemma collectEntries_filter_nil (f : Int → Except String (Option EvolutionRecord))
    (p : EvolutionRecord → Bool) :
    ∀ (gl : List Int) (rs : List EvolutionRecord),
      collectEntries f gl = Except.ok rs →
      (∀ b ∈ gl, ∀ r', f b = Except.ok (some r') → p r' = false) →
      rs.filter p = [] := by
  intro gl
  induction gl with
  | nil =>
    intro rs hok _
    injection hok with h'
    subst h'
    rfl
  | cons g gs ih =>
    intro rs hok hother
    rw [collectEntries] at hok
    cases hf : f g with
    | error e => rw [hf] at hok; cases hok
    | ok og =>
      rw [hf] at hok
      match og with
      | none => exact ih rs hok fun b hb => hother b (List.mem_cons_of_mem _ hb)
      | some r0 =>
        cases hrest : collectEntries f gs with
        | error e => rw [hrest] at hok; cases hok
        | ok rs' =>
          rw [hrest] at hok
          injection hok with h'
          subst h'
          have hp := hother g (List.mem_cons_self _ _) r0 hf
          rw [List.filter_cons, hp]
          simpa using ih rs' hrest fun b hb => hother b (List.mem_cons_of_mem _ hb)

/-- In a successful run of the grid loop over pairwise distinct grid
codes, a filter matching only grid `g` reduces to grid `g`'s entry. -/
lemma collectEntries_filter_single (f : Int → Except String (Option EvolutionRecord))
    (p : EvolutionRecord → Bool) :
    ∀ (gl : List Int) (rs : List EvolutionRecord) (g : Int), gl.Nodup → g ∈ gl →
      collectEntries f gl = Except.ok rs →
      (∀ b ∈ gl, b ≠ g → ∀ r', f b = Except.ok (some r') → p r' = false) →
      ∃ og, f g = Except.ok og ∧ rs.filter p = og.toList.filter p := by
  intro gl
  induction gl with
  | nil =>
    intro rs g _ hg
    cases hg
  | cons x xs ih =>
    intro rs g hnd hg hok hother
    rw [List.nodup_cons] at hnd
    rw [collectEntries] at hok
    cases hf : f x with
    | error e => rw [hf] at hok; cases hok
    | ok og =>
      rw [hf] at hok
      rcases List.mem_cons.mp hg with rfl | hgx
      · refine ⟨og, hf, ?_⟩
        match og with
        | none =>
          have hnil := collectEntries_filter_nil f p xs rs hok fun b hb r' hr' =>
            hother b (List.mem_cons_of_mem _ hb) (fun he => hnd.1 (he ▸ hb)) r' hr'
          simpa using hnil
        | some r0 =>
          cases hrest : collectEntries f xs with
          | error e => rw [hrest] at hok; cases hok
          | ok rs' =>
            rw [hrest] at hok
            injection hok with h'
            subst h'
            have hnil := collectEntries_filter_nil f p xs rs' hrest fun b hb r' hr' =>
              hother b (List.mem_cons_of_mem _ hb) (fun he => hnd.1 (he ▸ hb)) r' hr'
            by_cases hp : p r0 = true
            · simp [List.filter_cons, hp, hnil]
            · simp [List.filter_cons, hp, hnil]
      · have hxg : x ≠ g := fun he => hnd.1 (he ▸ hgx)
        match og with
        | none =>
          exact ih rs g hnd.2 hgx hok fun b hb hbne r' hr' =>
            hother b (List.mem_cons_of_mem _ hb) hbne r' hr'
        | some r0 =>
          cases hrest : collectEntries f xs with
          | error e => rw [hrest] at hok; cases hok
          | ok rs' =>
            rw [hrest] at hok
            injection hok with h'
            subst h'
            have hp := hother x (List.mem_cons_self _ _) hxg r0 hf
            obtain ⟨og', hfg', heq⟩ := ih rs' g hnd.2 hgx hrest fun b hb hbne r' hr' =>
              hother b (List.mem_cons_of_mem _ hb) hbne r' hr'
            refine ⟨og', hfg', ?_⟩
            rw [List.filter_cons, hp]
            simpa using heq

/-- When every record of every listed entity group fails the filter, a
successful run of the entity loop filters to nothing. -/
lemma analyzeGroups_filter_nil (dfg : List GrilleRow) (dm : List MergedRow)
    (p : EvolutionRecord → Bool) :
    ∀ (l : List Int) (rs : List EvolutionRecord),
      analyzeGroups dfg dm l = Except.ok rs →
      (∀ b ∈ l, ∀ gb, menuGroup dfg dm b = Except.ok gb → gb.filter p = []) →
      rs.filter p = [] := by
  intro l
  induction l with
  | nil =>
    intro rs hok _
    injection hok with h'
    subst h'
    rfl
  | cons a rest ih =>
    intro rs hok hother
    rw [analyzeGroups] at hok
    cases hga : menuGroup dfg dm a with
    | error e => rw [hga] at hok; cases hok
    | ok ga =>
      rw [hga] at hok
      cases hrest : analyzeGroups dfg dm rest with
      | error e => rw [hrest] at hok; cases hok
      | ok more =>
        rw [hrest] at hok
        injection hok with h'
        subst h'
        rw [List.filter_append, hother a (List.mem_cons_self _ _) ga hga,
          ih more hrest fun b hb => hother b (List.mem_cons_of_mem _ hb)]
        rfl

/-- In a successful run of the entity loop over pairwise distinct entity
codes, a filter matching only entity `a` reduces to entity `a`'s group. -/
lemma analyzeGroups_filter_single (dfg : List GrilleRow) (dm : List MergedRow)
    (p : EvolutionRecord → Bool) :
    ∀ (l : List Int) (rs : List EvolutionRecord) (a : Int), l.Nodup → a ∈ l →
      analyzeGroups dfg dm l = Except.ok rs →
      (∀ b ∈ l, b ≠ a → ∀ gb, menuGroup dfg dm b = Except.ok gb → gb.filter p = []) →
      ∃ ga, menuGroup dfg dm a = Except.ok ga ∧ rs.filter p = ga.filter p := by
  intro l
  induction l with
  | nil =>
    intro rs a _ ha
    cases ha
  | cons x xs ih =>
    intro rs a hnd ha hok hother
    rw [List.nodup_cons] at hnd
    rw [analyzeGroups] at hok
    cases hgx : menuGroup dfg dm x with
    | error e => rw [hgx] at hok; cases hok
    | ok gx =>
      rw [hgx] at hok
      cases hrest : analyzeGroups dfg dm xs with
      | error e => rw [hrest] at hok; cases hok
      | ok more =>
        rw [hrest] at hok
        injection hok with h'
        subst h'
        rcases List.mem_cons.mp ha with rfl | hax
        · refine ⟨gx, hgx, ?_⟩
          rw [List.filter_append,
            analyzeGroups_filter_nil dfg dm p xs more hrest fun b hb gb hgb =>
              hother b (List.mem_cons_of_mem _ hb) (fun he => hnd.1 (he ▸ hb)) gb hgb,
            List.append_nil]
        · have hxa : x ≠ a := fun he => hnd.1 (he ▸ hax)
          obtain ⟨ga, hga, heq⟩ := ih more a hnd.2 hax hrest fun b hb hbne gb hgb =>
            hother b (List.mem_cons_of_mem _ hb) hbne gb hgb
          refine ⟨ga, hga, ?_⟩
          rw [List.filter_append, hother x (List.mem_cons_self _ _) hxa gx hgx,
            List.nil_append, heq]

/-- C10: every record the analyzer emits for one entity draws `nom_court`,
`nom_long`, `activite` and `activite_libelle` from the same single row —
the first row of the entity's filtered rows — whichever grid the record
summarizes. -/
theorem analyze_acte_info_consistent (dfg : List GrilleRow) (dfm : List MergedRow)
    (menu acte : Int) (out : List EvolutionRecord) (r : EvolutionRecord)
    (hout : analyze_price_evolution_for_menu dfg dfm menu = Except.ok (some out))
    (hr : r ∈ out) (hacte : r.cod_acte = acte) :
    r.nom_court = (acteInfo dfm menu acte).nom_court ∧
    r.nom_long = (acteInfo dfm menu acte).nom_long ∧
    r.activite = (acteInfo dfm menu acte).activ_cod ∧
    r.activite_libelle = (acteInfo dfm menu acte).activite_libelle := by
  obtain ⟨acte', -, ga, hga, hrga⟩ := mem_analyzeGroups (analyze_ok_elim hout) hr
  have hcod := mem_menuGroup_cod_acte hga hrga
  rw [hacte] at hcod
  subst hcod
  simp only [menuGroup] at hga
  obtain ⟨grille, -, hsome⟩ := mem_collectEntries hga hrga
  obtain ⟨-, -, h3, h4, h5, h6, -⟩ := evolutionEntry_props hsome
  exact ⟨h3, h4, h5, h6⟩

unseal Rat.sub Rat.add Rat.mul Rat.inv in
theorem analyze_acte_info_consistent_witness :
    scenarioRecord.nom_court = (acteInfo scenarioDf 1 100).nom_court ∧
    scenarioRecord.nom_long = (acteInfo scenarioDf 1 100).nom_long ∧
    scenarioRecord.activite = (acteInfo scenarioDf 1 100).activ_cod ∧
    scenarioRecord.activite_libelle = (acteInfo scenarioDf 1 100).activite_libelle :=
  analyze_acte_info_consistent [] scenarioDf 1 100 [scenarioRecord] scenarioRecord
    (by decide : analyze_price_evolution_for_menu [] scenarioDf 1 =
      Except.ok (some [scenarioRecord]))
    (by decide) (by decide)

/-- C1: in a run of the analyzer that returns a record list, every
(menu, entity, grid) series with at least one row yields exactly one
record for that pair; the series is sorted by ascending modification
timestamp (a sorted permutation of the matching rows),
`prix_initial`/`prix_actuel` are the first/last sorted prices,
`evolution_euros` their difference, `evolution_pct` the relative change
times 100 when the first price is nonzero, and `nb_modifications` the
number of matching rows.  (A run in which the grid-label lookup raises
`IndexError` returns `Except.error` instead and emits nothing.) -/
theorem analyze_price_evolution_spec (dfg : List GrilleRow) (dfm : List MergedRow)
    (menu acte grille : Int) (out : List EvolutionRecord)
    (hg : grille ∈ grilles_filter)
    (ha : acte ∈ uniqueList ((dfm.filter fun r => r.menu_cod = menu).map fun r => r.cod_acte))
    (hne : acteGrilleRows dfm menu acte grille ≠ [])
    (hout : analyze_price_evolution_for_menu dfg dfm menu = Except.ok (some out)) :
    ∃ r, (out.filter fun x => decide (x.cod_acte = acte) && decide (x.grille_cod = grille)) = [r] ∧
      List.Sorted dateLE (sortByDate (acteGrilleRows dfm menu acte grille)) ∧
      (sortByDate (acteGrilleRows dfm menu acte grille)).Perm
        (acteGrilleRows dfm menu acte grille) ∧
      r.prix_initial = (sortByDate (acteGrilleRows dfm menu acte grille)).headI.pu_base ∧
      r.prix_actuel = (sortByDate (acteGrilleRows dfm menu acte grille)).getLastI.pu_base ∧
      r.evolution_euros = r.prix_actuel - r.prix_initial ∧
      (r.prix_initial ≠ 0 →
        r.evolution_pct = (r.prix_actuel - r.prix_initial) / r.prix_initial * 100) ∧
      r.nb_modifications = (acteGrilleRows dfm menu acte grille).length := by
  have hgroups := analyze_ok_elim hout
  have hother1 : ∀ b ∈ uniqueList ((dfm.filter fun r => r.menu_cod = menu).map
      fun r => r.cod_acte), b ≠ acte → ∀ gb,
      menuGroup dfg (dfm.filter fun r => r.menu_cod = menu) b = Except.ok gb →
      gb.filter (fun x => decide (x.cod_acte = acte) && decide (x.grille_cod = grille)) = [] := by
    intro b _ hbne gb hgb
    rw [List.filter_eq_nil_iff]
    intro x hx hpx
    have hxc := mem_menuGroup_cod_acte hgb hx
    rw [Bool.and_eq_true, decide_eq_true_eq, decide_eq_true_eq] at hpx
    exact hbne (by rw [← hxc, hpx.1])
  obtain ⟨ga, hga, hfilter⟩ := analyzeGroups_filter_single dfg
    (dfm.filter fun r => r.menu_cod = menu)
    (fun x => decide (x.cod_acte = acte) && decide (x.grille_cod = grille))
    (uniqueList ((dfm.filter fun r => r.menu_cod = menu).map fun r => r.cod_acte))
    out acte (uniqueList_nodup _) ha hgroups hother1
  simp only [menuGroup] at hga
  have hother2 : ∀ b ∈ grilles_filter, b ≠ grille → ∀ r',
      evolutionEntry dfg
        ((dfm.filter fun r => r.menu_cod = menu).filter fun r => r.cod_acte = acte).headI
        acte ((dfm.filter fun r => r.menu_cod = menu).filter fun r => r.cod_acte = acte) b =
        Except.ok (some r') →
      (decide (r'.cod_acte = acte) && decide (r'.grille_cod = grille)) = false := by
    intro b _ hbne r' hr'
    have hxg := (evolutionEntry_props hr').2.1
    have hner : r'.grille_cod ≠ grille := by rw [hxg]; exact hbne
    simp [hner]
  obtain ⟨og, hog, hfilter2⟩ := collectEntries_filter_single
    (evolutionEntry dfg
      ((dfm.filter fun r => r.menu_cod = menu).filter fun r => r.cod_acte = acte).headI
      acte ((dfm.filter fun r => r.menu_cod = menu).filter fun r => r.cod_acte = acte))
    (fun x => decide (x.cod_acte = acte) && decide (x.grille_cod = grille))
    grilles_filter ga grille (by decide) hg hga hother2
  have hne' : ((dfm.filter fun r => r.menu_cod = menu).filter
      fun r => r.cod_acte = acte).filter (fun r => r.grille_cod = grille) ≠ [] := hne
  obtain ⟨r0, rfl⟩ := evolutionEntry_ok_some hog hne'
  obtain ⟨hc, hgr, -, -, -, -, hpi, hpa, hee, hep, hnb⟩ := evolutionEntry_props hog
  have hpr0 : (decide (r0.cod_acte = acte) && decide (r0.grille_cod = grille)) = true := by
    rw [Bool.and_eq_true, decide_eq_true_eq, decide_eq_true_eq]
    exact ⟨hc, hgr⟩
  refine ⟨r0, ?_, sortByDate_sorted _, sortByDate_perm _, hpi, hpa, hee, ?_, hnb⟩
  · rw [hfilter, hfilter2]
    simp [Option.toList, List.filter_cons, hpr0]
  · intro hne0
    rw [hep]
    simp [evolutionPct, hne0]

unseal Rat.sub Rat.add Rat.mul Rat.inv in
theorem analyze_price_evolution_spec_witness :
    (analyze_price_evolution_for_menu [] scenarioDf 1 = Except.ok (some [scenarioRecord]) ∧
      scenarioRecord.prix_initial = 10 ∧ scenarioRecord.prix_actuel = 12 ∧
      scenarioRecord.evolution_euros = 2 ∧ scenarioRecord.evolution_pct = 20 ∧
      scenarioRecord.nb_modifications = 2) ∧
    ∃ r, (([scenarioRecord] : List EvolutionRecord).filter
        fun x => decide (x.cod_acte = 100) && decide (x.grille_cod = 3)) = [r] ∧
        List.Sorted dateLE (sortByDate (acteGrilleRows scenarioDf 1 100 3)) ∧
        (sortByDate (acteGrilleRows scenarioDf 1 100 3)).Perm
          (acteGrilleRows scenarioDf 1 100 3) ∧
        r.prix_initial = (sortByDate (acteGrilleRows scenarioDf 1 100 3)).headI.pu_base ∧
        r.prix_actuel = (sortByDate (acteGrilleRows scenarioDf 1 100 3)).getLastI.pu_base ∧
        r.evolution_euros = r.prix_actuel - r.prix_initial ∧
        (r.prix_initial ≠ 0 →
          r.evolution_pct = (r.prix_actuel - r.prix_initial) / r.prix_initial * 100) ∧
        r.nb_modifications = (acteGrilleRows scenarioDf 1 100 3).length :=
  ⟨by decide, analyze_price_evolution_spec [] scenarioDf 1 100 3 [scenarioRecord]
    (by decide) (by decide) (by decide)
    (by decide : analyze_price_evolution_for_menu [] scenarioDf 1 =
      Except.ok (some [scenarioRecord]))⟩

/-- The decimal digit list of a natural number, most significant first
(the specification of core's fuelled `Nat.toDigitsCore` at base 10). -/
def natDigits (n : Nat) : List Char :=
  if n < 10 then [Nat.digitChar n]
  else natDigits (n / 10) ++ [Nat.digitChar (n % 10)]
termination_by n
decreasing_by exact Nat.div_lt_self (by omega) (by omega)

/-- Value of a decimal digit character (junk above 9). -/
def digitVal (c : Char) : Nat :=
  if c = '0' then 0 else if c = '1' then 1 else if c = '2' then 2 else
  if c = '3' then 3 else if c = '4' then 4 else if c = '5' then 5 else
  if c = '6' then 6 else if c = '7' then 7 else if c = '8' then 8 else
  if c = '9' then 9 else 10

lemma digitVal_digitChar : ∀ d : Nat, d < 10 → digitVal (Nat.digitChar d) = d := by
  decide

lemma digitChar_ne : ∀ d : Nat, d < 10 →
    Nat.digitChar d ≠ '_' ∧ Nat.digitChar d ≠ '-' := by
  decide

lemma natDigits_foldl (n : Nat) : ∀ a : Nat,
    (natDigits n).foldl (fun x c => x * 10 + digitVal c) a =
      a * 10 ^ (natDigits n).length + n := by
  induction n using Nat.strong_induction_on with
  | _ n ih =>
    intro a
    rw [natDigits]
    by_cases h : n < 10
    · rw [if_pos h]
      simp [digitVal_digitChar n h]
    · rw [if_neg h]
      rw [List.foldl_append, List.length_append]
      rw [ih (n / 10) (Nat.div_lt_self (by omega) (by omega)) a]
      simp only [List.foldl_cons, List.foldl_nil, List.length_cons, List.length_nil]
      rw [digitVal_digitChar (n % 10) (Nat.mod_lt _ (by omega))]
      have hdm : 10 * (n / 10) + n % 10 = n := Nat.div_add_mod n 10
      calc (a * 10 ^ (natDigits (n / 10)).length + n / 10) * 10 + n % 10
          = a * (10 ^ (natDigits (n / 10)).length * 10) + (10 * (n / 10) + n % 10) := by
            ring
        _ = a * 10 ^ ((natDigits (n / 10)).length + (0 + 1)) + n := by
            rw [hdm, Nat.zero_add, pow_succ]

lemma natDigits_inj {m n : Nat} (h : natDigits m = natDigits n) : m = n := by
  have hm := natDigits_foldl m 0
  have hn := natDigits_foldl n 0
  rw [h] at hm
  simp only [Nat.zero_mul, Nat.zero_add] at hm hn
  exact hm.symm.trans hn

lemma toDigitsCore_eq_natDigits :
    ∀ (n fuel : Nat) (ds : List Char), n < fuel →
      Nat.toDigitsCore 10 fuel n ds = natDigits n ++ ds := by
  intro n
  induction n using Nat.strong_induction_on with
  | _ n ih =>
    intro fuel ds hfuel
    match fuel with
    | 0 => omega
    | f + 1 =>
      rw [Nat.toDigitsCore]
      by_cases h10 : n / 10 = 0
      · rw [if_pos h10]
        have hn10 : n < 10 := by omega
        rw [natDigits, if_pos hn10, Nat.mod_eq_of_lt hn10]
        rfl
      · rw [if_neg h10]
        have hrec := ih (n / 10) (Nat.div_lt_self (by omega) (by omega)) f
          (Nat.digitChar (n % 10) :: ds) (by omega)
        rw [hrec]
        conv_rhs => rw [natDigits]
        rw [if_neg (by omega)]
        simp

lemma nat_repr_eq_natDigits (n : Nat) : Nat.repr n = (natDigits n).asString := by
  simp only [Nat.repr, Nat.toDigits]
  rw [toDigitsCore_eq_natDigits n (n + 1) [] (Nat.lt_succ_self n)]
  simp

lemma nat_repr_inj {m n : Nat} (h : Nat.repr m = Nat.repr n) : m = n := by
  rw [nat_repr_eq_natDigits, nat_repr_eq_natDigits] at h
  exact natDigits_inj (congrArg String.data h)

lemma natDigits_chars : ∀ n : Nat, ∀ c ∈ natDigits n, c ≠ '_' ∧ c ≠ '-' := by
  intro n
  induction n using Nat.strong_induction_on with
  | _ n ih =>
    intro c hc
    rw [natDigits] at hc
    by_cases h : n < 10
    · rw [if_pos h] at hc
      rcases List.mem_singleton.mp hc with rfl
      exact digitChar_ne n h
    · rw [if_neg h] at hc
      rcases List.mem_append.mp hc with hc | hc
      · exact ih (n / 10) (Nat.div_lt_self (by omega) (by omega)) c hc
      · rcases List.mem_singleton.mp hc with rfl
        exact digitChar_ne _ (Nat.mod_lt _ (by omega))

lemma int_toString_ofNat (m : Nat) : toString (Int.ofNat m) = Nat.repr m := rfl

lemma int_toString_negSucc (m : Nat) :
    toString (Int.negSucc m) = "-" ++ Nat.repr (m + 1) := rfl

lemma int_toString_chars (c : Int) : ∀ ch ∈ (toString c).data, ch ≠ '_' := by
  cases c with
  | ofNat m =>
    rw [int_toString_ofNat, nat_repr_eq_natDigits]
    intro ch hch
    exact (natDigits_chars m ch hch).1
  | negSucc m =>
    rw [int_toString_negSucc, nat_repr_eq_natDigits]
    intro ch hch
    rw [String.data_append] at hch
    rcases List.mem_append.mp hch with h | h
    · rcases List.mem_singleton.mp h with rfl
      decide
    · exact (natDigits_chars (m + 1) ch h).1

lemma int_toString_inj : ∀ {c1 c2 : Int}, toString c1 = toString c2 → c1 = c2 := by
  intro c1 c2 h
  cases c1 with
  | ofNat m =>
    cases c2 with
    | ofNat n =>
      rw [int_toString_ofNat, int_toString_ofNat] at h
      rw [nat_repr_inj h]
    | negSucc n =>
      exfalso
      rw [int_toString_ofNat, int_toString_negSucc, nat_repr_eq_natDigits,
        nat_repr_eq_natDigits] at h
      have hd := congrArg String.data h
      rw [String.data_append] at hd
      have hmem : '-' ∈ natDigits m := by
        have : '-' ∈ ("-" : String).data ++ (natDigits (n + 1)).asString.data := by
          simp [String.data]
        rw [← hd] at this
        exact this
      exact (natDigits_chars m '-' hmem).2 rfl
  | negSucc m =>
    cases c2 with
    | ofNat n =>
      exfalso
      rw [int_toString_ofNat, int_toString_negSucc, nat_repr_eq_natDigits,
        nat_repr_eq_natDigits] at h
      have hd := congrArg String.data h
      rw [String.data_append] at hd
      have hmem : '-' ∈ natDigits n := by
        have : '-' ∈ ("-" : String).data ++ (natDigits (m + 1)).asString.data := by
          simp [String.data]
        rw [hd] at this
        exact this
      exact (natDigits_chars n '-' hmem).2 rfl
    | negSucc n =>
      rw [int_toString_negSucc, int_toString_negSucc] at h
      have hd := congrArg String.data h
      rw [String.data_append, String.data_append] at hd
      have hd' := List.append_cancel_left hd
      have hsucc : m + 1 = n + 1 := nat_repr_inj (String.ext hd')
      have hmn : m = n := by omega
      rw [hmn]

lemma append_underscore_inj :
    ∀ (a b r s : List Char), (∀ c ∈ a, c ≠ '_') → (∀ c ∈ b, c ≠ '_') →
      a ++ '_' :: r = b ++ '_' :: s → a = b := by
  intro a
  induction a with
  | nil =>
    intro b r s _ hb h
    cases b with
    | nil => rfl
    | cons y ys =>
      injection h with h1 h2
      exact absurd h1.symm (hb y (List.mem_cons_self _ _))
  | cons x xs ih =>
    intro b r s ha hb h
    cases b with
    | nil =>
      injection h with h1 h2
      exact absurd h1 (ha x (List.mem_cons_self _ _))
    | cons y ys =>
      injection h with h1 h2
      rw [h1]
      rw [ih ys r s (fun c hc => ha c (List.mem_cons_of_mem _ hc))
        (fun c hc => hb c (List.mem_cons_of_mem _ hc)) h2]

/-- The code prefixed to every filename keeps sanitized-label collisions
apart: distinct menu codes give distinct filenames, whatever the
alphanumeric classification (the code part contains no underscore, so it
is recovered as the prefix up to the first underscore). -/
lemma export_filename_inj (isalnum : Char → Bool) (df : List MenuRow) {c1 c2 : Int}
    (h : c1 ≠ c2) :
    export_filename isalnum df c1 ≠ export_filename isalnum df c2 := by
  intro heq
  apply h
  apply int_toString_inj
  apply String.ext
  have hd := congrArg String.data heq
  simp only [export_filename, String.data_append] at hd
  rw [List.append_assoc, List.append_assoc, List.append_assoc, List.append_assoc] at hd
  exact append_underscore_inj _ _ _ _ (int_toString_chars c1) (int_toString_chars c2) hd

/-- C6: for a menu whose label exists in the menu table, the export
filename is the numeric code, an underscore, the label with every
character outside alphanumerics/space/hyphen/underscore replaced by an
underscore, truncated to 100 characters, and the extension; the code
prefix keeps filenames of distinct menus distinct even when their
sanitized labels collide.  `isalnum` is the runtime's Unicode-aware
`str.isalnum`, over which the statement is universally quantified. -/
theorem export_filename_spec (isalnum : Char → Bool) (df : List MenuRow)
    (c1 c2 : Int) (row : MenuRow)
    (h1 : df.find? (fun r => r.cod_menu = c1) = some row) (hne : c1 ≠ c2) :
    export_filename isalnum df c1 =
      toString c1 ++ "_" ++
        String.mk ((row.libelle.toList.map (sanitizeChar isalnum)).take 100) ++ ".xlsx" ∧
    ((row.libelle.toList.map (sanitizeChar isalnum)).take 100).length ≤ 100 ∧
    (∀ c : Char, (isalnum c = true ∨ c = ' ' ∨ c = '-' ∨ c = '_') →
      sanitizeChar isalnum c = c) ∧
    (∀ c : Char, ¬(isalnum c = true ∨ c = ' ' ∨ c = '-' ∨ c = '_') →
      sanitizeChar isalnum c = '_') ∧
    export_filename isalnum df c1 ≠ export_filename isalnum df c2 := by
  refine ⟨?_, List.length_take_le _ _, ?_, ?_, export_filename_inj isalnum df hne⟩
  · simp only [export_filename, h1, sanitizeLabel]
    rfl
  · intro c hc
    simp only [sanitizeChar]
    split
    · rfl
    · rename_i hb
      rw [Bool.or_eq_true, Bool.or_eq_true, Bool.or_eq_true, decide_eq_true_eq,
        decide_eq_true_eq, decide_eq_true_eq] at hb
      exact absurd (by tauto) hb
  · intro c hc
    simp only [sanitizeChar]
    split
    · rename_i hb
      rw [Bool.or_eq_true, Bool.or_eq_true, Bool.or_eq_true, decide_eq_true_eq,
        decide_eq_true_eq, decide_eq_true_eq] at hb
      exact absurd (by tauto) hc
    · rfl

/-- Two menus whose labels sanitize to the same string. -/
def collideMenu : List MenuRow :=
  [⟨1, "Acte/Chir:urgical", some 0⟩, ⟨2, "Acte_Chir_urgical", some 0⟩]

theorem export_filename_spec_witness :
    sanitizeLabel Char.isAlphanum "Acte/Chir:urgical" = "Acte_Chir_urgical" ∧
    export_filename Char.isAlphanum collideMenu 1 =
      toString (1 : Int) ++ "_" ++
        String.mk ((("Acte/Chir:urgical" : String).toList.map
          (sanitizeChar Char.isAlphanum)).take 100) ++ ".xlsx" ∧
    export_filename Char.isAlphanum collideMenu 1 ≠
      export_filename Char.isAlphanum collideMenu 2 :=
  ⟨by decide,
   (export_filename_spec Char.isAlphanum collideMenu 1 2 ⟨1, "Acte/Chir:urgical", some 0⟩
     (by decide) (by decide)).1,
   (export_filename_spec Char.isAlphanum collideMenu 1 2 ⟨1, "Acte/Chir:urgical", some 0⟩
     (by decide) (by decide)).2.2.2.2⟩
